import Mathlib

/-!
# Verification of the TrustCheck streaming gateway (`src/server.js`)

Shallow embedding of the gateway's core algorithms and of its per-client
session state machine, together with theorems settling the specification
claims.

Conventions:

* JavaScript strings are Lean `String`s; the default `Array.prototype.sort`
  comparison (UTF-16 code units) is modelled by code-point comparison of the
  character lists, which agrees with it on the Basic Multilingual Plane
  (every string this server builds or signs is ASCII).
* Byte sequences (`Buffer`s and frame bytes) are `List Nat` with entries
  below 256.
* Machine integers do not occur: all lengths and checksums are `Nat` with
  explicit `% 2 ^ 32` where the wire format is 32-bit.
* Fallible JavaScript code (property access on `null`, `for … of` over a
  non-iterable, a JSON parse) is embedded in `Except Unit` / `Option`.
-/

namespace Gateway

/-! ## String comparison (JS `Array.prototype.sort` default order) -/

/-- Lexicographic comparison of character lists by code point, the order JS
`sort()` uses on strings (UTF-16 code-unit order; identical on the BMP). -/
def charsLe : List Char → List Char → Bool
  | [], _ => true
  | _ :: _, [] => false
  | a :: as, b :: bs =>
    if a.toNat < b.toNat then true
    else if b.toNat < a.toNat then false
    else charsLe as bs

/-- `a ≤ b` in JS string order. -/
def strLe (a b : String) : Bool := charsLe a.data b.data

/-- String equality as a computable boolean on the character lists. -/
def strEq (a b : String) : Bool := a.data == b.data

/-- `a < b` in JS string order. -/
def strLt (a b : String) : Bool := strLe a b && !(strEq a b)

theorem string_ext {a b : String} (h : a.data = b.data) : a = b := by
  cases a; cases b; exact congrArg String.mk h

theorem strEq_iff {a b : String} : strEq a b = true ↔ a = b := by
  constructor
  · intro h
    exact string_ext (by simpa [strEq] using h)
  · intro h; subst h; simp [strEq]

theorem charsLe_refl : ∀ as, charsLe as as = true
  | [] => rfl
  | _ :: as => by simp [charsLe, charsLe_refl as]

theorem charsLe_total : ∀ as bs, charsLe as bs = true ∨ charsLe bs as = true
  | [], _ => Or.inl rfl
  | _ :: _, [] => Or.inr rfl
  | a :: as, b :: bs => by
    rcases Nat.lt_trichotomy a.toNat b.toNat with h | h | h
    · exact Or.inl (by simp [charsLe, h])
    · rcases charsLe_total as bs with ih | ih
      · exact Or.inl (by simp [charsLe, h, ih])
      · exact Or.inr (by simp [charsLe, h.symm, ih])
    · exact Or.inr (by simp [charsLe, h])

theorem charsLe_trans : ∀ as bs cs, charsLe as bs = true → charsLe bs cs = true →
    charsLe as cs = true
  | [], _, _, _, _ => rfl
  | _ :: _, [], _, h1, _ => by simp [charsLe] at h1
  | _ :: _, _ :: _, [], _, h2 => by simp [charsLe] at h2
  | a :: as, b :: bs, c :: cs, h1, h2 => by
    simp only [charsLe] at h1 h2 ⊢
    by_cases hab : a.toNat < b.toNat <;> by_cases hba : b.toNat < a.toNat <;>
      by_cases hbc : b.toNat < c.toNat <;> by_cases hcb : c.toNat < b.toNat <;>
      simp_all <;>
      first
        | omega
        | (have hac : a.toNat < c.toNat := by omega
           simp [hac])
        | (have hac : ¬ a.toNat < c.toNat := by omega
           have hca : ¬ c.toNat < a.toNat := by omega
           simp [hac, hca]
           first
             | exact charsLe_trans as bs cs h1 h2
             | exact ⟨by omega, charsLe_trans as bs cs h1 h2⟩)

theorem char_toNat_inj {a b : Char} (h : a.toNat = b.toNat) : a = b := by
  have := congrArg Char.ofNat h
  simpa [Char.ofNat_toNat] using this

theorem charsLe_antisymm : ∀ as bs, charsLe as bs = true → charsLe bs as = true → as = bs
  | [], [], _, _ => rfl
  | [], _ :: _, _, h2 => by simp [charsLe] at h2
  | _ :: _, [], h1, _ => by simp [charsLe] at h1
  | a :: as, b :: bs, h1, h2 => by
    simp only [charsLe] at h1 h2
    by_cases hab : a.toNat < b.toNat <;> by_cases hba : b.toNat < a.toNat <;> simp_all
    · omega
    · have : a = b := char_toNat_inj (by omega)
      exact ⟨this, charsLe_antisymm as bs h1 h2⟩

theorem strLe_total (a b : String) : strLe a b = true ∨ strLe b a = true :=
  charsLe_total a.data b.data

theorem strLe_trans {a b c : String} (h1 : strLe a b = true) (h2 : strLe b c = true) :
    strLe a c = true :=
  charsLe_trans a.data b.data c.data h1 h2

theorem strLe_antisymm {a b : String} (h1 : strLe a b = true) (h2 : strLe b a = true) :
    a = b :=
  string_ext (charsLe_antisymm a.data b.data h1 h2)

theorem strLe_refl (a : String) : strLe a a = true := charsLe_refl a.data

theorem strLt_iff {a b : String} : strLt a b = true ↔ strLe a b = true ∧ a ≠ b := by
  simp only [strLt, Bool.and_eq_true, Bool.not_eq_true']
  constructor
  · rintro ⟨h1, h2⟩
    refine ⟨h1, fun he => ?_⟩
    subst he
    simp [strEq_iff.2 rfl] at h2
  · rintro ⟨h1, h2⟩
    refine ⟨h1, ?_⟩
    rcases h : strEq a b with _ | _
    · rfl
    · exact absurd (strEq_iff.1 h) h2

theorem strLt_trans_le {a b c : String} (h1 : strLt a b = true) (h2 : strLe b c = true) :
    strLt a c = true := by
  rcases strLt_iff.1 h1 with ⟨hle, hne⟩
  refine strLt_iff.2 ⟨strLe_trans hle h2, fun he => ?_⟩
  subst he
  exact hne (strLe_antisymm hle h2)

/-! ## Insertion sort in JS string order

`Array.prototype.sort()` returns *the* sorted permutation of its input; for
string elements equal elements are identical, so the sorted permutation is
unique and any correct sorting algorithm models it.  We use insertion sort. -/

def insertS (x : String) : List String → List String
  | [] => [x]
  | y :: ys => if strLe x y then x :: y :: ys else y :: insertS x ys

def sortS : List String → List String
  | [] => []
  | x :: xs => insertS x (sortS xs)

theorem insertS_perm (x : String) : ∀ l : List String, (insertS x l).Perm (x :: l)
  | [] => List.Perm.refl _
  | y :: ys => by
    simp only [insertS]
    split
    · exact List.Perm.refl _
    · exact ((insertS_perm x ys).cons y).trans (List.Perm.swap x y ys)

theorem sortS_perm : ∀ l : List String, (sortS l).Perm l
  | [] => List.Perm.refl _
  | x :: xs => (insertS_perm x (sortS xs)).trans ((sortS_perm xs).cons x)

/-- Sortedness stated as an all-pairs boolean. -/
def pairwiseLe : List String → Bool
  | [] => true
  | k :: ks => ks.all (fun k2 => strLe k k2) && pairwiseLe ks

theorem pairwiseLe_insertS (x : String) : ∀ l, pairwiseLe l = true →
    pairwiseLe (insertS x l) = true
  | [], _ => by simp [insertS, pairwiseLe]
  | y :: ys, h => by
    simp only [pairwiseLe, Bool.and_eq_true, List.all_eq_true] at h
    obtain ⟨hy, hys⟩ := h
    simp only [insertS]
    split
    · rename_i hxy
      simp only [pairwiseLe, Bool.and_eq_true, List.all_eq_true]
      refine ⟨?_, ?_, hys⟩
      · intro z hz
        rcases List.mem_cons.1 hz with rfl | hz
        · exact hxy
        · exact strLe_trans hxy (hy z hz)
      · exact hy
    · rename_i hxy
      have hyx : strLe y x = true := by
        rcases strLe_total x y with h | h
        · exact absurd h hxy
        · exact h
      simp only [pairwiseLe, Bool.and_eq_true, List.all_eq_true]
      refine ⟨?_, pairwiseLe_insertS x ys hys⟩
      intro z hz
      have := (insertS_perm x ys).mem_iff.1 hz
      rcases List.mem_cons.1 this with rfl | hz2
      · exact hyx
      · exact hy z hz2

theorem pairwiseLe_sortS : ∀ l, pairwiseLe (sortS l) = true
  | [] => rfl
  | x :: xs => pairwiseLe_insertS x (sortS xs) (pairwiseLe_sortS xs)

/-! ## `encodeRFC3986` (src/server.js lines 31-34)

`encodeURIComponent` leaves `A-Z a-z 0-9 - _ . ! ~ * ' ( )` unescaped and
percent-encodes every other character's UTF-8 bytes with uppercase hex; the
`replace` then also escapes `! ' ( ) *`.  Net effect: only the RFC 3986
unreserved set `A-Z a-z 0-9 - . _ ~` survives unescaped. -/

/-- Uppercase hexadecimal digit, as `toString(16).toUpperCase()` produces. -/
def hexDigit (n : Nat) : Char :=
  if n < 10 then Char.ofNat (48 + n) else Char.ofNat (55 + n)

/-- `%XX` escape of one byte. -/
def pctByte (b : Nat) : List Char :=
  ['%', hexDigit (b / 16), hexDigit (b % 16)]

/-- UTF-8 bytes of one code point (what `encodeURIComponent` escapes). -/
def utf8Bytes (c : Char) : List Nat :=
  let n := c.toNat
  if n < 128 then [n]
  else if n < 2048 then [192 + n / 64, 128 + n % 64]
  else if n < 65536 then [224 + n / 4096, 128 + n / 64 % 64, 128 + n % 64]
  else [240 + n / 262144, 128 + n / 4096 % 64, 128 + n / 64 % 64, 128 + n % 64]

/-- Characters `encodeRFC3986` leaves unescaped. -/
def isUnreservedChar (c : Char) : Bool :=
  decide ((65 ≤ c.toNat ∧ c.toNat ≤ 90) ∨ (97 ≤ c.toNat ∧ c.toNat ≤ 122) ∨
    (48 ≤ c.toNat ∧ c.toNat ≤ 57) ∨ c = '-' ∨ c = '.' ∨ c = '_' ∨ c = '~')

/-- `encodeRFC3986(str)` from src/server.js. -/
def encodeRFC3986 (s : String) : String :=
  String.mk ((s.data.map fun c =>
    if isUnreservedChar c then [c] else ((utf8Bytes c).map pctByte).flatten).flatten)

/-! ## `buildQueryString` (src/server.js lines 36-53)

A JS query object is modelled as an association list with distinct keys.  At
the two call sites the values are strings or arrays of strings (plus the
possibility of `undefined`/`null`, which the loop skips), already stringified
by `String(…)`. -/

/-- A query-parameter value. -/
inductive QVal where
  | undef
  | null
  | str (s : String)
  | arr (vs : List String)
deriving DecidableEq

/-- The raw `key=value` pairs contributed by one key, in emission order:
`undefined`/`null` values are skipped, an array value is expanded into one
pair per element after sorting the stringified elements, any other value
yields one pair (loop body, src/server.js lines 39-51). -/
def emitKey (query : List (String × QVal)) (k : String) : List (String × String) :=
  match (query.lookup k).getD QVal.undef with
  | QVal.undef => []
  | QVal.null => []
  | QVal.str s => [(k, s)]
  | QVal.arr vs => (sortS vs).map fun v => (k, v)

/-- All raw pairs in emission order: keys sorted ascending first
(src/server.js line 38), then each key's pairs. -/
def emittedPairs (query : List (String × QVal)) : List (String × String) :=
  (sortS (query.map Prod.fst)).flatMap (emitKey query)

/-- `buildQueryString(query)`: percent-encode each emitted pair and join with
`&` (src/server.js lines 36-53; pushing encoded pairs and joining is the same
as mapping the encoder over the raw pairs and joining). -/
def buildQueryString (query : List (String × QVal)) : String :=
  String.intercalate "&"
    ((emittedPairs query).map fun p => encodeRFC3986 p.1 ++ "=" ++ encodeRFC3986 p.2)

/-- The emission order asserted by the spec, as a boolean on adjacent pairs:
key strictly ascending, or same key with value ascending. -/
def pairLeB (p q : String × String) : Bool :=
  strLt p.1 q.1 || (strEq p.1 q.1 && strLe p.2 q.2)

/-- Adjacent-pair ascending chain. -/
def ascPairs : List (String × String) → Bool
  | [] => true
  | [_] => true
  | p :: q :: r => pairLeB p q && ascPairs (q :: r)

/-- Key distinctness of a query mapping, as a boolean. -/
def distinctKeys : List String → Bool
  | [] => true
  | k :: ks => ks.all (fun k2 => !(strEq k k2)) && distinctKeys ks

theorem distinctKeys_iff : ∀ l : List String, distinctKeys l = true ↔ l.Nodup
  | [] => by simp [distinctKeys]
  | k :: ks => by
    simp only [distinctKeys, Bool.and_eq_true, List.all_eq_true, Bool.not_eq_true',
      List.nodup_cons, distinctKeys_iff ks]
    constructor
    · rintro ⟨h1, h2⟩
      refine ⟨fun hk => ?_, h2⟩
      have := h1 k hk
      simp [strEq_iff.2 rfl] at this
    · rintro ⟨h1, h2⟩
      refine ⟨fun z hz => ?_, h2⟩
      rcases h : strEq k z with _ | _
      · rfl
      · exact absurd hz (strEq_iff.1 h ▸ h1)

theorem emitKey_key (query : List (String × QVal)) (k : String) :
    ∀ p ∈ emitKey query k, p.1 = k := by
  intro p hp
  unfold emitKey at hp
  split at hp <;> simp_all
  obtain ⟨v, _, h⟩ := hp
  simp [← h]

theorem ascPairs_map_const (k : String) : ∀ l, pairwiseLe l = true →
    ascPairs (l.map fun v => (k, v)) = true
  | [], _ => rfl
  | [_], _ => rfl
  | x :: y :: r, h => by
    simp only [pairwiseLe, Bool.and_eq_true, List.all_eq_true] at h
    simp only [List.map_cons, ascPairs, Bool.and_eq_true]
    refine ⟨?_, ?_⟩
    · have h1 : strLe x y = true := h.1 y (by simp)
      simp [pairLeB, strEq, h1]
    · have h2 : pairwiseLe (y :: r) = true := by
        simp only [pairwiseLe, Bool.and_eq_true, List.all_eq_true]
        exact h.2
      simpa using ascPairs_map_const k (y :: r) h2

theorem ascPairs_block (query : List (String × QVal)) (k : String) :
    ascPairs (emitKey query k) = true := by
  unfold emitKey
  split
  · rfl
  · rfl
  · rfl
  · exact ascPairs_map_const k _ (pairwiseLe_sortS _)

theorem ascPairs_append : ∀ xs ys : List (String × String), ascPairs xs = true →
    ascPairs ys = true → (∀ p ∈ xs, ∀ q ∈ ys, pairLeB p q = true) →
    ascPairs (xs ++ ys) = true
  | [], _, _, hy, _ => hy
  | [p], ys, _, hy, hc => by
    cases ys with
    | nil => rfl
    | cons q ys2 =>
      simp only [List.cons_append, List.nil_append, ascPairs, Bool.and_eq_true]
      exact ⟨hc p (by simp) q (by simp), hy⟩
  | p1 :: p2 :: xs2, ys, hx, hy, hc => by
    simp only [ascPairs, Bool.and_eq_true] at hx
    simp only [List.cons_append, ascPairs, Bool.and_eq_true]
    have tail : ascPairs (p2 :: xs2 ++ ys) = true :=
      ascPairs_append (p2 :: xs2) ys hx.2 hy
        (fun p hp q hq => hc p (List.mem_cons_of_mem p1 hp) q hq)
    exact ⟨hx.1, by simpa using tail⟩

theorem ascPairs_flatMap (query : List (String × QVal)) :
    ∀ ks : List String, pairwiseLe ks = true → ks.Nodup →
    ascPairs (ks.flatMap (emitKey query)) = true
  | [], _, _ => rfl
  | k :: ks2, hle, hnd => by
    simp only [pairwiseLe, Bool.and_eq_true, List.all_eq_true] at hle
    simp only [List.nodup_cons] at hnd
    simp only [List.flatMap_cons]
    apply ascPairs_append
    · exact ascPairs_block query k
    · exact ascPairs_flatMap query ks2 hle.2 hnd.2
    · intro p hp q hq
      obtain ⟨k2, hk2, hq2⟩ := List.mem_flatMap.1 hq
      have hpk : p.1 = k := emitKey_key query k p hp
      have hqk : q.1 = k2 := emitKey_key query k2 q hq2
      have hlt : strLt k k2 = true := by
        refine strLt_iff.2 ⟨hle.1 k2 hk2, fun he => ?_⟩
        exact hnd.1 (he ▸ hk2)
      simp [pairLeB, hpk, hqk, hlt]

/-! ## JSON values and JavaScript value semantics

`JSON.parse` produces null, booleans, numbers, strings, arrays and objects.
Numbers are modelled as integers (no claim depends on fractional values).
An object is an association list of fields; duplicate keys cannot survive
`JSON.parse`, so lookup of the first occurrence is faithful. -/

inductive Json where
  | null
  | bool (b : Bool)
  | num (n : Int)
  | str (s : String)
  | arr (xs : List Json)
  | obj (fields : List (String × Json))

/-- Is this the JS `null` value? -/
def Json.isNull : Json → Bool
  | .null => true
  | _ => false

/-- JS truthiness of a value. -/
def jsTruthy : Json → Bool
  | .null => false
  | .bool b => b
  | .num n => !(n == 0)
  | .str s => !(s == "")
  | .arr _ => true
  | .obj _ => true

/-- First field with the given name (see the note on duplicates above). -/
def lookupField (fs : List (String × Json)) (k : String) : Option Json :=
  fs.lookup k

/-- JS property access `v[k]`: throws on `null`, yields the field on an
object, and `undefined` (here `none`) on any other value (the field names
this server reads are never `length` or an index, so primitives and arrays
have no own property of that name). -/
def jsGet (v : Json) (k : String) : Except Unit (Option Json) :=
  match v with
  | .null => .error ()
  | .obj fs => .ok (lookupField fs k)
  | _ => .ok none

/-- The total result of `jsGet` away from `null`. -/
def jsGetT (v : Json) (k : String) : Option Json :=
  match v with
  | .obj fs => lookupField fs k
  | _ => none

/-- Optional-chaining access `v?.k`: `undefined` on `null`, never throws. -/
def optChain (v : Json) (k : String) : Option Json :=
  match v with
  | .null => none
  | .obj fs => lookupField fs k
  | _ => none

/-- `x?.k` where `x` may already be `undefined`. -/
def optChainO (v : Option Json) (k : String) : Option Json :=
  match v with
  | none => none
  | some w => optChain w k

/-- JS indexing `a[0]` on a truthy value (`null` cannot reach here). -/
def jsIndex0 (a : Json) : Option Json :=
  match a with
  | .arr (x :: _) => some x
  | .arr [] => none
  | .str s =>
    match s.data with
    | [] => none
    | ch :: _ => some (.str (String.mk [ch]))
  | .obj fs => lookupField fs "0"
  | _ => none

/-- JS `for … of` iteration: arrays yield their elements, strings their
characters (as one-character strings); every other value is not iterable and
throws a `TypeError`. -/
def jsIter : Json → Except Unit (List Json)
  | .arr xs => .ok xs
  | .str s => .ok (s.data.map fun ch => .str (String.mk [ch]))
  | _ => .error ()

/-! ## `extractTranscriptParts` (src/server.js lines 114-129) -/

/-- A transcript segment as emitted to the client.  `text` is whatever
truthy value `alt?.Transcript` held (a non-empty string on well-formed
payloads); `startTime`/`endTime` are `Json.null` when the fields are absent
(`?? null`). -/
structure TranscriptSegment where
  text : Json
  isPartial : Bool
  startTime : Json
  endTime : Json
/-- `pure`/`ok` bind reduction for `Except`, used to evaluate the embedded
fallible computations. -/
theorem bindOk {α β : Type} (a : α) (f : α → Except Unit β) :
    (Except.ok a >>= f) = f a := rfl

theorem bindErr {α β : Type} (f : α → Except Unit β) :
    ((Except.error () : Except Unit α) >>= f) = Except.error () := rfl

theorem pureEq {α : Type} (a : α) : (pure a : Except Unit α) = Except.ok a := rfl

/-- The ternary `r.Alternatives && r.Alternatives[0] ? r.Alternatives[0] : null`
(src/server.js line 118), given the value of `r.Alternatives` (`none` =
`undefined`).  The result is `none` exactly when the ternary yields `null`. -/
def altOf (alts? : Option Json) : Option Json :=
  match alts? with
  | none => none
  | some alts =>
    if jsTruthy alts then
      match jsIndex0 alts with
      | some e => if jsTruthy e then some e else none
      | none => none
    else none

/-- `alt?.Transcript` (src/server.js line 119): optional chaining short-circuits
on `null`; otherwise a plain property access on the (truthy) alternative. -/
def transcriptAccess (alt : Option Json) : Except Unit (Option Json) :=
  match alt with
  | none => .ok none
  | some a => jsGet a "Transcript"

/-- `x || ""` applied to the `alt?.Transcript` value (src/server.js line 119). -/
def textOf (t? : Option Json) : Json :=
  match t? with
  | some tv => if jsTruthy tv then tv else .str ""
  | none => .str ""

/-- `!!r.IsPartial` (src/server.js line 123), given the value of `r.IsPartial`. -/
def isPartialOf (ip? : Option Json) : Bool :=
  match ip? with
  | some v => jsTruthy v
  | none => false

/-- Loop body of `extractTranscriptParts` for one element `r` of the results
list (src/server.js lines 117-127): `none` when the result is skipped,
`some` segment when it is pushed; throws iff `r` is `null` (the only
unguarded property access on a possibly-null value). -/
def processResult (r : Json) : Except Unit (Option TranscriptSegment) :=
  jsGet r "Alternatives" >>= fun alts? =>
  transcriptAccess (altOf alts?) >>= fun t? =>
  if jsTruthy (textOf t?) then
    jsGet r "IsPartial" >>= fun ip? =>
    jsGet r "StartTime" >>= fun st? =>
    jsGet r "EndTime" >>= fun et? =>
    pure (some
      { text := textOf t?
        isPartial := isPartialOf ip?
        startTime := st?.getD Json.null
        endTime := et?.getD Json.null })
  else pure none

/-- `json?.Transcript?.Results` (src/server.js line 115). -/
def resultsRaw (json : Json) : Option Json :=
  optChainO (optChain json "Transcript") "Results"

/-- `json?.Transcript?.Results || []` (src/server.js line 115). -/
def resultsValue (json : Json) : Json :=
  match resultsRaw json with
  | some v => if jsTruthy v then v else .arr []
  | none => .arr []

/-- The `for (const r of results)` loop (src/server.js lines 117-127):
collects pushed segments in order, propagating a throw from any iteration. -/
def extractLoop : List Json → Except Unit (List TranscriptSegment)
  | [] => .ok []
  | r :: rs =>
    processResult r >>= fun seg? =>
    extractLoop rs >>= fun rest =>
    match seg? with
    | some sg => .ok (sg :: rest)
    | none => .ok rest

/-- `extractTranscriptParts(json)` (src/server.js lines 114-129), with a
thrown `TypeError` embedded as `.error ()`. -/
def extractTranscriptParts (json : Json) : Except Unit (List TranscriptSegment) :=
  jsIter (resultsValue json) >>= extractLoop

/-- The pure per-result outcome: what `processResult` yields when it does
not throw. -/
def segOf (r : Json) : Option TranscriptSegment :=
  match processResult r with
  | .ok o => o
  | .error _ => none

/-- Payload well-formedness under which the extraction loop cannot throw:
the (defaulted) results value is an array with no `null` element, or a
string. -/
def goodResults (json : Json) : Bool :=
  match resultsValue json with
  | .arr rs => rs.all fun r => !(r.isNull)
  | .str _ => true
  | _ => false

theorem truthy_not_null (a : Json) (h : jsTruthy a = true) : a.isNull = false := by
  cases a <;> simp_all [jsTruthy, Json.isNull]

theorem jsGet_exists_ok (r : Json) (k : String) (h : r.isNull = false) :
    ∃ x, jsGet r k = .ok x := by
  cases r <;> first
    | exact ⟨_, rfl⟩
    | simp [Json.isNull] at h

theorem altOf_truthy (alts? : Option Json) (a : Json) (h : altOf alts? = some a) :
    jsTruthy a = true := by
  cases alts? with
  | none => simp [altOf] at h
  | some alts =>
    simp only [altOf] at h
    by_cases htr : jsTruthy alts = true
    · rw [if_pos htr] at h
      cases hidx : jsIndex0 alts with
      | none => rw [hidx] at h; simp at h
      | some e =>
        simp only [hidx] at h
        by_cases hte : jsTruthy e = true
        · rw [if_pos hte] at h
          simp only [Option.some.injEq] at h
          subst h
          exact hte
        · rw [if_neg hte] at h; simp at h
    · rw [if_neg htr] at h; simp at h

theorem transcriptAccess_exists_ok (alt : Option Json)
    (h : ∀ a, alt = some a → jsTruthy a = true) :
    ∃ t, transcriptAccess alt = .ok t := by
  cases alt with
  | none => exact ⟨none, rfl⟩
  | some a => exact jsGet_exists_ok a "Transcript" (truthy_not_null a (h a rfl))

theorem processResult_exists_ok (r : Json) (h : r.isNull = false) :
    ∃ o, processResult r = .ok o := by
  obtain ⟨alts?, h1⟩ := jsGet_exists_ok r "Alternatives" h
  obtain ⟨t?, h2⟩ := transcriptAccess_exists_ok (altOf alts?) (altOf_truthy alts?)
  obtain ⟨ip?, h3⟩ := jsGet_exists_ok r "IsPartial" h
  obtain ⟨st?, h4⟩ := jsGet_exists_ok r "StartTime" h
  obtain ⟨et?, h5⟩ := jsGet_exists_ok r "EndTime" h
  unfold processResult
  simp only [h1, bindOk, h2]
  by_cases htext : jsTruthy (textOf t?) = true
  · simp only [if_pos htext, h3, bindOk, h4, h5]
    exact ⟨_, rfl⟩
  · simp only [if_neg htext]
    exact ⟨_, rfl⟩

theorem processResult_ok (r : Json) (h : r.isNull = false) :
    processResult r = .ok (segOf r) := by
  obtain ⟨o, ho⟩ := processResult_exists_ok r h
  rw [ho]
  unfold segOf
  rw [ho]

theorem processResult_text (r : Json) (sg : TranscriptSegment)
    (h : processResult r = .ok (some sg)) : jsTruthy sg.text = true := by
  unfold processResult at h
  cases h1 : jsGet r "Alternatives" with
  | error e => rw [h1] at h; cases e; rw [bindErr] at h; exact absurd h (by simp)
  | ok alts? =>
    rw [h1, bindOk] at h
    cases h2 : transcriptAccess (altOf alts?) with
    | error e => rw [h2] at h; cases e; rw [bindErr] at h; exact absurd h (by simp)
    | ok t? =>
      rw [h2, bindOk] at h
      by_cases htext : jsTruthy (textOf t?) = true
      · rw [if_pos htext] at h
        cases h3 : jsGet r "IsPartial" with
        | error e => rw [h3] at h; cases e; rw [bindErr] at h; exact absurd h (by simp)
        | ok ip? =>
          rw [h3, bindOk] at h
          cases h4 : jsGet r "StartTime" with
          | error e => rw [h4] at h; cases e; rw [bindErr] at h; exact absurd h (by simp)
          | ok st? =>
            rw [h4, bindOk] at h
            cases h5 : jsGet r "EndTime" with
            | error e => rw [h5] at h; cases e; rw [bindErr] at h; exact absurd h (by simp)
            | ok et? =>
              rw [h5, bindOk, pureEq] at h
              simp only [Except.ok.injEq, Option.some.injEq] at h
              subst h
              exact htext
      · rw [if_neg htext, pureEq] at h
        exact absurd h (by simp)

theorem segOf_text (r : Json) (sg : TranscriptSegment) (h : segOf r = some sg) :
    jsTruthy sg.text = true := by
  unfold segOf at h
  cases hpr : processResult r with
  | error e => rw [hpr] at h; exact absurd h (by simp)
  | ok o =>
    rw [hpr] at h
    simp only at h
    rw [h] at hpr
    exact processResult_text r sg hpr

theorem extractLoop_ok : ∀ rs : List Json, (∀ r ∈ rs, r.isNull = false) →
    extractLoop rs = .ok (rs.filterMap segOf)
  | [], _ => rfl
  | r :: rs, h => by
    have h1 : processResult r = .ok (segOf r) := processResult_ok r (h r (by simp))
    have h2 := extractLoop_ok rs fun x hx => h x (by simp [hx])
    simp only [extractLoop, h1, bindOk, h2, List.filterMap_cons]
    cases segOf r <;> simp

theorem length_filterMap_countP {α β : Type} (f : α → Option β) : ∀ l : List α,
    (l.filterMap f).length = l.countP fun a => (f a).isSome
  | [] => rfl
  | a :: l => by
    simp only [List.filterMap_cons, List.countP_cons]
    cases h : f a <;> simp [length_filterMap_countP f l, h]

/-! ## The event-stream codec

Modelled from the spec: the codec itself is the external
`@aws-sdk/eventstream-marshaller` (src/server.js line 29), not code of this
repository, so it is modelled from spec §4.2: a frame is a total-length
prefix, a headers-length prefix, a prelude checksum, a header block
(repeated: name-length, name, type tag, typed value), the payload bytes, and
a trailing message checksum.  All headers are string-typed (tag 7); header
names and values are byte sequences (UTF-8 of the JS strings).  Length
prefixes are 32-bit big-endian, name lengths one byte, value lengths 16-bit.
The spec does not fix the checksum function; it is modelled as the byte sum
mod `2 ^ 32`, recomputed and compared by the decoder exactly like the real
CRC. -/

/-- A decoded frame: string-typed headers (name bytes, value bytes) and
payload bytes. -/
structure Frame where
  headers : List (List Nat × List Nat)
  payload : List Nat
deriving DecidableEq

/-- Big-endian bytes of `n`, `w` bytes wide (mod `256 ^ w`). -/
def beBytes : Nat → Nat → List Nat
  | 0, _ => []
  | w + 1, n => beBytes w (n / 256) ++ [n % 256]

/-- Big-endian value of a byte list. -/
def beVal (bs : List Nat) : Nat := bs.foldl (fun a b => a * 256 + b) 0

/-- Read `w` big-endian bytes off the front of a byte list. -/
def readBE (w : Nat) (bs : List Nat) : Option (Nat × List Nat) :=
  if w ≤ bs.length then some (beVal (bs.take w), bs.drop w) else none

/-- The modelled 32-bit checksum: byte sum mod `2 ^ 32`. -/
def checksum (bs : List Nat) : Nat := (bs.foldl (fun a b => a + b) 0) % 2 ^ 32

/-- One header block entry: name-length, name, string type tag (7),
value-length, value. -/
def encodeHeaderEntry (p : List Nat × List Nat) : List Nat :=
  beBytes 1 p.1.length ++ p.1 ++ [7] ++ beBytes 2 p.2.length ++ p.2

/-- The header block. -/
def headerBytes (hs : List (List Nat × List Nat)) : List Nat :=
  (hs.map encodeHeaderEntry).flatten

/-- `marshall`: encode a frame into its wire bytes. -/
def encodeFrame (f : Frame) : List Nat :=
  let hb := headerBytes f.headers
  let total := 16 + hb.length + f.payload.length
  let prelude := beBytes 4 total ++ beBytes 4 hb.length
  let pre := prelude ++ beBytes 4 (checksum prelude)
  let body := pre ++ hb ++ f.payload
  body ++ beBytes 4 (checksum body)

/-- Parse the header block; the fuel is an upper bound on the number of
entries (each entry occupies at least one byte, so the block length serves). -/
def decodeHeadersF : Nat → List Nat → Option (List (List Nat × List Nat))
  | _, [] => some []
  | 0, _ :: _ => none
  | fuel + 1, b :: bs0 =>
    let bs := b :: bs0
    match readBE 1 bs with
    | none => none
    | some (nl, bs1) =>
      if nl ≤ bs1.length then
        match bs1.drop nl with
        | [] => none
        | t :: bs2 =>
          if t = 7 then
            match readBE 2 bs2 with
            | none => none
            | some (vl, bs3) =>
              if vl ≤ bs3.length then
                match decodeHeadersF fuel (bs3.drop vl) with
                | none => none
                | some rest => some ((bs1.take nl, bs3.take vl) :: rest)
              else none
          else none
      else none

/-- `unmarshall`: decode wire bytes into a frame, `none` on truncated or
malformed input (wrong lengths, tag, or checksum). -/
def decodeFrame (bs : List Nat) : Option Frame :=
  match readBE 4 bs with
  | none => none
  | some (total, r1) =>
    match readBE 4 r1 with
    | none => none
    | some (hlen, r2) =>
      match readBE 4 r2 with
      | none => none
      | some (pc, r3) =>
        if pc = checksum (bs.take 8) ∧ total = bs.length ∧ hlen + 4 ≤ r3.length then
          let rest := r3.drop hlen
          let mc := beVal (rest.drop (rest.length - 4))
          if mc = checksum (bs.take (bs.length - 4)) then
            match decodeHeadersF (r3.take hlen).length (r3.take hlen) with
            | none => none
            | some hs => some ⟨hs, rest.take (rest.length - 4)⟩
          else none
        else none

theorem beBytes_length : ∀ w n, (beBytes w n).length = w
  | 0, _ => rfl
  | w + 1, n => by simp [beBytes, beBytes_length w]

theorem beVal_beBytes : ∀ w n, n < 256 ^ w → beVal (beBytes w n) = n
  | 0, n, h => by
    simp only [pow_zero, Nat.lt_one_iff] at h
    simp [beBytes, beVal, h]
  | w + 1, n, h => by
    have hd : n / 256 < 256 ^ w := by
      rw [Nat.div_lt_iff_lt_mul (by norm_num)]
      calc n < 256 ^ (w + 1) := h
        _ = 256 ^ w * 256 := by ring
    have ih := beVal_beBytes w (n / 256) hd
    simp only [beBytes, beVal, List.foldl_append, List.foldl_cons, List.foldl_nil]
    simp only [beVal] at ih
    rw [ih]
    omega

theorem readBE_append (w : Nat) (bs rest : List Nat) (h : bs.length = w) :
    readBE w (bs ++ rest) = some (beVal bs, rest) := by
  subst h
  unfold readBE
  rw [if_pos (by simp), List.take_left, List.drop_left]

theorem readBE_beBytes (w n : Nat) (rest : List Nat) (h : n < 256 ^ w) :
    readBE w (beBytes w n ++ rest) = some (n, rest) := by
  rw [readBE_append w _ rest (beBytes_length w n), beVal_beBytes w n h]

theorem readBE_one (x : Nat) (xs : List Nat) : readBE 1 (x :: xs) = some (x, xs) := by
  unfold readBE
  rw [if_pos (by simp)]
  simp [beVal]

theorem decodeHeadersF_roundtrip : ∀ (hs : List (List Nat × List Nat)) (fuel : Nat),
    (∀ p ∈ hs, p.1.length < 256 ∧ p.2.length < 65536) →
    (headerBytes hs).length ≤ fuel →
    decodeHeadersF fuel (headerBytes hs) = some hs
  | [], fuel, _, _ => by simp [headerBytes, decodeHeadersF]
  | (nm, v) :: hs', fuel, hwf, hlen => by
    obtain ⟨hnm, hv⟩ := hwf (nm, v) (by simp)
    have hrest : ∀ p ∈ hs', p.1.length < 256 ∧ p.2.length < 65536 :=
      fun p hp => hwf p (by simp [hp])
    have hshape : headerBytes ((nm, v) :: hs') =
        nm.length % 256 :: (nm ++ ([7] ++ (beBytes 2 v.length ++ (v ++ headerBytes hs')))) := by
      simp [headerBytes, encodeHeaderEntry, beBytes]
    have hlen2 : (headerBytes ((nm, v) :: hs')).length =
        4 + nm.length + v.length + (headerBytes hs').length := by
      rw [hshape]
      simp [beBytes_length]
      omega
    cases fuel with
    | zero =>
      rw [hlen2] at hlen
      omega
    | succ f =>
      rw [hshape]
      simp only [decodeHeadersF, readBE_one]
      rw [Nat.mod_eq_of_lt hnm]
      rw [if_pos (by simp)]
      rw [List.drop_left, List.take_left]
      simp only [List.singleton_append]
      simp only [if_true]
      have hv2 : v.length < 256 ^ 2 := by
        have h2 : (256 : Nat) ^ 2 = 65536 := by norm_num
        have hv3 : v.length < 65536 := hv
        omega
      simp only [readBE_beBytes 2 v.length _ hv2]
      rw [if_pos (by simp)]
      rw [List.drop_left, List.take_left]
      have hfuel : (headerBytes hs').length ≤ f := by
        rw [hlen2] at hlen
        omega
      rw [decodeHeadersF_roundtrip hs' f hrest hfuel]

theorem decodeFrame_concat (hs : List (List Nat × List Nat)) (hb p : List Nat)
    (T PC MC : Nat)
    (hhb : hb = headerBytes hs)
    (hT : T = 16 + hb.length + p.length)
    (hPC : PC = checksum (beBytes 4 T ++ beBytes 4 hb.length))
    (hMC : MC = checksum (beBytes 4 T ++ beBytes 4 hb.length ++ beBytes 4 PC ++ hb ++ p))
    (hh : ∀ q ∈ hs, q.1.length < 256 ∧ q.2.length < 65536)
    (ht : T < 256 ^ 4) :
    decodeFrame (beBytes 4 T ++ beBytes 4 hb.length ++ beBytes 4 PC ++ hb ++ p ++ beBytes 4 MC)
      = some ⟨hs, p⟩ := by
  have hcs : ∀ bs : List Nat, checksum bs < 256 ^ 4 := by
    intro bs
    have h2 : (256 : Nat) ^ 4 = 2 ^ 32 := by norm_num
    rw [h2]
    exact Nat.mod_lt _ (by norm_num)
  have hW : beBytes 4 T ++ beBytes 4 hb.length ++ beBytes 4 PC ++ hb ++ p ++ beBytes 4 MC =
      beBytes 4 T ++ (beBytes 4 hb.length ++ (beBytes 4 PC ++ (hb ++ (p ++ beBytes 4 MC)))) := by
    simp [List.append_assoc]
  rw [hW]
  have hhb32 : hb.length < 256 ^ 4 := by omega
  simp only [decodeFrame, readBE_beBytes 4 T _ ht, readBE_beBytes 4 hb.length _ hhb32,
    readBE_beBytes 4 PC _ (hPC ▸ hcs _)]
  have c1 : (beBytes 4 T ++ (beBytes 4 hb.length ++ (beBytes 4 PC ++
      (hb ++ (p ++ beBytes 4 MC))))).take 8 = beBytes 4 T ++ beBytes 4 hb.length := by
    rw [← List.append_assoc]
    exact List.take_left' (by simp [beBytes_length])
  have c2 : T = (beBytes 4 T ++ (beBytes 4 hb.length ++ (beBytes 4 PC ++
      (hb ++ (p ++ beBytes 4 MC))))).length := by
    simp [beBytes_length]
    omega
  have c3 : hb.length + 4 ≤ (hb ++ (p ++ beBytes 4 MC)).length := by
    simp [beBytes_length]
  rw [if_pos ⟨by rw [c1, hPC], c2, c3⟩]
  simp only [List.drop_left, List.take_left]
  have hr : (p ++ beBytes 4 MC).length - 4 = p.length := by
    simp [beBytes_length]
  rw [hr]
  simp only [List.drop_left, List.take_left]
  have c4 : (beBytes 4 T ++ (beBytes 4 hb.length ++ (beBytes 4 PC ++
      (hb ++ (p ++ beBytes 4 MC))))).take
        ((beBytes 4 T ++ (beBytes 4 hb.length ++ (beBytes 4 PC ++
          (hb ++ (p ++ beBytes 4 MC))))).length - 4) =
      beBytes 4 T ++ beBytes 4 hb.length ++ beBytes 4 PC ++ hb ++ p := by
    have hgroup : beBytes 4 T ++ (beBytes 4 hb.length ++ (beBytes 4 PC ++
        (hb ++ (p ++ beBytes 4 MC)))) =
        (beBytes 4 T ++ beBytes 4 hb.length ++ beBytes 4 PC ++ hb ++ p) ++ beBytes 4 MC := by
      simp [List.append_assoc]
    rw [hgroup]
    apply List.take_left'
    simp [beBytes_length]
    omega
  rw [beVal_beBytes 4 MC (hMC ▸ hcs _)]
  rw [if_pos (by rw [c4, hMC])]
  rw [hhb, decodeHeadersF_roundtrip hs _ hh (Nat.le_refl _)]

/-- Round trip of the event-stream codec: decoding an encoded frame recovers
the headers and the payload, provided the frame is encodable (names fit the
one-byte length, values the two-byte length, the total the 32-bit length). -/
theorem decodeFrame_encodeFrame (f : Frame)
    (hh : ∀ q ∈ f.headers, q.1.length < 256 ∧ q.2.length < 65536)
    (ht : 16 + (headerBytes f.headers).length + f.payload.length < 2 ^ 32) :
    decodeFrame (encodeFrame f) = some f := by
  obtain ⟨hs, p⟩ := f
  have h2 : (256 : Nat) ^ 4 = 2 ^ 32 := by norm_num
  exact decodeFrame_concat hs (headerBytes hs) p _ _ _ rfl rfl rfl rfl hh
    (by rw [h2]; exact ht)

/-! ## Bytes and text -/

/-- UTF-8 bytes of an ASCII string (all protocol literals are ASCII). -/
def ascii (s : String) : List Nat := s.data.map Char.toNat

/-- Modelled from the spec: `Buffer.from(bytes).toString("utf8")` is the
external Node text decoder; it is modelled as bytewise code-point decoding,
which agrees with UTF-8 on ASCII payloads (every payload a claim evaluates
is ASCII). -/
def textDecodeBytes (bs : List Nat) : String := String.mk (bs.map Char.ofNat)

theorem textDecodeBytes_ascii (s : String) : textDecodeBytes (ascii s) = s := by
  apply string_ext
  simp only [textDecodeBytes, ascii, List.map_map]
  have h : Char.ofNat ∘ Char.toNat = id := by
    funext c
    simp [Char.ofNat_toNat]
  rw [h, List.map_id]

/-- Value of one standard base64 alphabet character. -/
def b64Val (c : Char) : Option Nat :=
  if 65 ≤ c.toNat ∧ c.toNat ≤ 90 then some (c.toNat - 65)
  else if 97 ≤ c.toNat ∧ c.toNat ≤ 122 then some (c.toNat - 97 + 26)
  else if 48 ≤ c.toNat ∧ c.toNat ≤ 57 then some (c.toNat - 48 + 52)
  else if c = '+' then some 62
  else if c = '/' then some 63
  else none

/-- Decode one four-character base64 group (with `=` padding) to bytes. -/
def b64Group (a b c d : Char) : Option (List Nat) :=
  match b64Val a, b64Val b with
  | some va, some vb =>
    if c = '=' ∧ d = '=' then some [va * 4 + vb / 16]
    else
      match b64Val c with
      | some vc =>
        if d = '=' then some [va * 4 + vb / 16, vb % 16 * 16 + vc / 4]
        else
          match b64Val d with
          | some vd => some [va * 4 + vb / 16, vb % 16 * 16 + vc / 4, vc % 4 * 64 + vd]
          | none => none
      | none => none
  | _, _ => none

def b64Groups : List Char → Option (List Nat)
  | [] => some []
  | a :: b :: c :: d :: rest =>
    match b64Group a b c d with
    | none => none
    | some g =>
      match b64Groups rest with
      | none => none
      | some r => some (g ++ r)
  | _ => none

/-- Modelled from the spec: `Buffer.from(b64, "base64")` is the external
transport decoder; per spec §4.4 the chunk is decoded from base64 to raw
bytes, with failure reported as a bad chunk.  Standard base64 with padding. -/
def base64Decode (s : String) : Option (List Nat) := b64Groups s.data

/-! ## The session bridge (src/server.js lines 139-238)

Per spec §5 and §9, each client command and each upstream connection event
is one atomically processed step of a per-session dispatcher; the `start`
command's signing continuation (the code after `await … presign`) is folded
into its step, with the signing outcome an input of the event.  Upstream
events are delivered to the currently owned connection. -/

/-- `ws.readyState` of the upstream WebSocket. -/
inductive WSState where
  | connecting
  | open_
  | closing
  | closed
deriving DecidableEq

/-- The owned upstream connection handle. -/
structure Conn where
  readyState : WSState
deriving DecidableEq

/-- Per-client session state: the `ws` and `started` variables
(src/server.js lines 142-143). -/
structure Session where
  ws : Option Conn
  started : Bool
deriving DecidableEq

/-- The `start` message body; `none` models an absent field. -/
structure StartMsg where
  languageCode : Option String
  sampleRateHertz : Option Nat

/-- `x || d` for an optional string field (absent and `""` are falsy). -/
def jsOrStr (o : Option String) (d : String) : String :=
  match o with
  | none => d
  | some s => if s = "" then d else s

/-- `x || d` for an optional numeric field (absent and `0` are falsy). -/
def jsOrNat (o : Option Nat) (d : Nat) : Nat :=
  match o with
  | none => d
  | some n => if n = 0 then d else n

/-- One session event: a client command (with the signing outcome folded
into `start`) or an upstream connection event. -/
inductive SEvent where
  | start (msg : StartMsg) (signResult : Except String Unit)
  | audio (chunkBase64 : Option String)
  | stop
  | disconnect
  | upOpen
  | upMessage (data : List Nat)
  | upClose (code : Nat) (reason : String)
  | upError (message : String)

/-- One client-facing emission (`socket.emit`). -/
inductive Emit where
  | statusStarting (languageCode : String) (sampleRate : Nat)
  | statusStreaming
  | statusStopping
  | statusEnded (code : Nat) (reason : String)
  | transcript (seg : TranscriptSegment)
  | errorMsg (message : String)

/-- Observable output of one step: the next session state, the client
emissions in order, the signing attempts (the query each passes to
`presign`), the frames sent upstream (wire bytes), and the upstream
`close(code, reason)` calls. -/
structure StepOut where
  s : Session
  emits : List Emit
  signs : List (List (String × QVal))
  sends : List (List Nat)
  closes : List (Nat × String)

/-- The query passed to `presign` (src/server.js lines 68-72): language
code, fixed media encoding `"pcm"`, stringified sample rate. -/
def signQuery (languageCode : String) (sampleRate : Nat) : List (String × QVal) :=
  [("language-code", QVal.str languageCode),
   ("media-encoding", QVal.str "pcm"),
   ("sample-rate", QVal.str (toString sampleRate))]

/-- The fixed AudioEvent headers (src/server.js lines 211-215). -/
def audioHeaders : List (List Nat × List Nat) :=
  [(ascii ":message-type", ascii "event"),
   (ascii ":event-type", ascii "AudioEvent"),
   (ascii ":content-type", ascii "application/octet-stream")]

/-- A step with no output and unchanged state. -/
def noStep (s : Session) : StepOut := ⟨s, [], [], [], []⟩

/-- One step of the session bridge, parameterized by the external JSON
parser (`JSON.parse`; `none` models a parse failure, i.e. `parseJsonBody`
returning `null`). -/
def step (parseJson : List Nat → Option Json) (s : Session) (e : SEvent) : StepOut :=
  match e with
  | .start msg sig =>
    -- src/server.js lines 145-201
    if s.started then noStep s
    else
      let languageCode := jsOrStr msg.languageCode "en-US"
      let sampleRate := jsOrNat msg.sampleRateHertz 16000
      match sig with
      | .ok _ =>
        ⟨⟨some ⟨WSState.connecting⟩, true⟩,
          [.statusStarting languageCode sampleRate],
          [signQuery languageCode sampleRate], [], []⟩
      | .error m =>
        ⟨⟨none, false⟩,
          [.statusStarting languageCode sampleRate, .errorMsg m],
          [signQuery languageCode sampleRate], [], []⟩
  | .audio chunk? =>
    -- src/server.js lines 203-222
    match s.ws with
    | none => noStep s
    | some c =>
      if c.readyState = WSState.open_ then
        match chunk? with
        | none => noStep s
        | some b64 =>
          if b64 = "" then noStep s
          else
            match base64Decode b64 with
            | some bytes => ⟨s, [], [], [encodeFrame ⟨audioHeaders, bytes⟩], []⟩
            | none => ⟨s, [.errorMsg "Bad audio chunk"], [], [], []⟩
      else noStep s
  | .stop =>
    -- src/server.js lines 224-231
    let closes :=
      match s.ws with
      | some c => if c.readyState = WSState.open_ then [(1000, "client stop")] else []
      | none => []
    ⟨⟨none, false⟩, [.statusStopping], [], [], closes⟩
  | .disconnect =>
    -- src/server.js lines 233-237: closes the socket (the library moves it
    -- to `closing`) but leaves `ws` and `started` untouched
    match s.ws with
    | none => noStep s
    | some c =>
      if c.readyState = WSState.open_ then
        ⟨⟨some ⟨WSState.closing⟩, s.started⟩, [], [], [], [(1001, "client disconnect")]⟩
      else noStep s
  | .upOpen =>
    -- src/server.js line 159 (the library moves the socket to `open`)
    match s.ws with
    | none => noStep s
    | some _ => ⟨⟨some ⟨WSState.open_⟩, s.started⟩, [.statusStreaming], [], [], []⟩
  | .upMessage data =>
    -- src/server.js lines 161-183
    match s.ws with
    | none => noStep s
    | some _ =>
      match decodeFrame data with
      | none => noStep s
      | some f =>
        let mt := f.headers.lookup (ascii ":message-type")
        let et := f.headers.lookup (ascii ":event-type")
        if mt = some (ascii "event") ∧ et = some (ascii "TranscriptEvent") then
          match extractTranscriptParts ((parseJson f.payload).getD Json.null) with
          | .ok parts => ⟨s, parts.map Emit.transcript, [], [], []⟩
          | .error _ => noStep s
        else if mt = some (ascii "exception") then
          let etStr := jsOrStr (et.map textDecodeBytes) "Unknown"
          ⟨s, [.errorMsg ("Transcribe exception: " ++ etStr ++ " " ++
            textDecodeBytes f.payload)], [], [], []⟩
        else noStep s
  | .upClose code reason =>
    -- src/server.js lines 185-189
    match s.ws with
    | none => noStep s
    | some _ => ⟨⟨none, false⟩, [.statusEnded code reason], [], [], []⟩
  | .upError m =>
    -- src/server.js lines 191-195
    match s.ws with
    | none => noStep s
    | some _ => ⟨⟨none, false⟩, [.errorMsg m], [], [], []⟩

/-- Session states reachable from the initial state (`ws = null`,
`started = false`). -/
inductive Reachable (parseJson : List Nat → Option Json) : Session → Prop where
  | init : Reachable parseJson ⟨none, false⟩
  | next {s : Session} (h : Reachable parseJson s) (e : SEvent) :
      Reachable parseJson (step parseJson s e).s

theorem step_audio_s (parseJson : List Nat → Option Json) (s : Session)
    (chunk? : Option String) : (step parseJson s (.audio chunk?)).s = s := by
  obtain ⟨ws, st⟩ := s
  cases ws with
  | none => rfl
  | some c =>
    simp only [step]
    split
    · cases chunk? with
      | none => rfl
      | some b64 =>
        simp only
        split
        · rfl
        · cases base64Decode b64 <;> rfl
    · rfl

theorem step_upMessage_s (parseJson : List Nat → Option Json) (s : Session)
    (data : List Nat) : (step parseJson s (.upMessage data)).s = s := by
  obtain ⟨ws, st⟩ := s
  cases ws with
  | none => rfl
  | some c =>
    simp only [step]
    cases decodeFrame data with
    | none => rfl
    | some f =>
      simp only
      split
      · cases extractTranscriptParts ((parseJson f.payload).getD Json.null) <;> rfl
      · split <;> rfl

theorem reachable_started_iff (parseJson : List Nat → Option Json) (s : Session)
    (h : Reachable parseJson s) : s.started = s.ws.isSome := by
  induction h with
  | init => rfl
  | next h e ih =>
    rename_i s
    cases e with
    | start msg sig =>
      by_cases hs : s.started
      · simp [step, hs, noStep, ih ▸ hs]
      · cases sig <;> simp [step, hs, noStep]
    | audio chunk? => rw [step_audio_s]; exact ih
    | stop => rfl
    | disconnect =>
      obtain ⟨ws, st⟩ := s
      cases ws with
      | none => exact ih
      | some c =>
        simp only [step]
        split
        · simpa using ih
        · exact ih
    | upOpen =>
      obtain ⟨ws, st⟩ := s
      cases ws with
      | none => exact ih
      | some c => simpa using ih
    | upMessage data => rw [step_upMessage_s]; exact ih
    | upClose code reason =>
      obtain ⟨ws, st⟩ := s
      cases ws with
      | none => exact ih
      | some c => rfl
    | upError m =>
      obtain ⟨ws, st⟩ := s
      cases ws with
      | none => exact ih
      | some c => rfl

/-! ## Concrete fixtures used by witnesses and counterexamples -/

/-- A JSON parser stub used wherever a concrete parser is needed (no claim
depends on its behaviour). -/
def pjNone : List Nat → Option Json := fun _ => none

/-- The initial (Idle) session. -/
def sessionIdle : Session := ⟨none, false⟩

/-- A Streaming session: upstream connection owned and open. -/
def sessionStreaming : Session := ⟨some ⟨WSState.open_⟩, true⟩

/-- The exception frame of spec Scenario C. -/
def exceptionFrame : Frame :=
  ⟨[(ascii ":message-type", ascii "exception"),
    (ascii ":event-type", ascii "BadRequestException")],
   ascii "invalid sample rate"⟩

/-- A transcript payload with two results, one with non-empty text. -/
def exPayload : Json :=
  Json.obj [("Transcript", Json.obj [("Results", Json.arr
    [Json.obj [("Alternatives", Json.arr [Json.obj [("Transcript", Json.str "hi")]]),
               ("IsPartial", Json.bool true), ("StartTime", Json.num 1)],
     Json.obj [("Alternatives", Json.arr [Json.obj [("Transcript", Json.str "")]])]])])]

/-! ## Claims -/

/-- C1 (counterexample): the canonical query string does *not* list encoded
keys in ascending encoded order, nor array values in ascending encoded-value
order: the code sorts keys and stringified array values *before* encoding,
and percent-encoding does not preserve the order (`"-" < "?"` raw, but
`"%3F" < "-"` encoded).  For `{"-": "a", "?": "b"}` the output is
`-=a&%3F=b`, whose encoded keys `["-", "%3F"]` are descending; for
`{k: ["-", "?"]}` the encoded values `["-", "%3F"]` are likewise
descending. -/
theorem buildQueryString_claim_cex :
    buildQueryString [("-", QVal.str "a"), ("?", QVal.str "b")] = "-=a&%3F=b"
  ∧ (emittedPairs [("-", QVal.str "a"), ("?", QVal.str "b")]).map
      (fun p => encodeRFC3986 p.1) = ["-", "%3F"]
  ∧ strLt "-" "%3F" = false
  ∧ ascPairs ((emittedPairs [("-", QVal.str "a"), ("?", QVal.str "b")]).map
      (fun p => (encodeRFC3986 p.1, encodeRFC3986 p.2))) = false
  ∧ (emittedPairs [("k", QVal.arr ["-", "?"])]).map (fun p => encodeRFC3986 p.2)
      = ["-", "%3F"]
  ∧ strLe "-" "%3F" = false
  ∧ ascPairs ((emittedPairs [("k", QVal.arr ["-", "?"])]).map
      (fun p => (encodeRFC3986 p.1, encodeRFC3986 p.2))) = false :=
  ⟨rfl, rfl, rfl, rfl, rfl, rfl, rfl⟩

/-- C1 (amended): for any query mapping with distinct keys, the emitted
`key=value` pairs are ascending in *raw* (pre-encoding) JS string order —
keys strictly ascending, and for an array-valued key the expanded values
ascending among themselves — and the canonical query string is the
percent-encoded pairs joined with `&`. -/
theorem buildQueryString_sorted (query : List (String × QVal))
    (hnd : distinctKeys (query.map Prod.fst) = true) :
    ascPairs (emittedPairs query) = true
  ∧ buildQueryString query = String.intercalate "&"
      ((emittedPairs query).map fun p => encodeRFC3986 p.1 ++ "=" ++ encodeRFC3986 p.2) := by
  refine ⟨?_, rfl⟩
  unfold emittedPairs
  apply ascPairs_flatMap
  · exact pairwiseLe_sortS _
  · exact (sortS_perm _).symm.nodup ((distinctKeys_iff _).1 hnd)

/-- C1 (witness): the signing query `{language-code, media-encoding,
sample-rate}` has distinct keys and is emitted ascending. -/
theorem buildQueryString_sorted_witness :
    distinctKeys ((signQuery "en-US" 16000).map Prod.fst) = true
  ∧ ascPairs (emittedPairs (signQuery "en-US" 16000)) = true :=
  ⟨rfl, (buildQueryString_sorted (signQuery "en-US" 16000) rfl).1⟩

/-- C2 (counterexample): `extractTranscriptParts` *does* raise on a malformed
payload: a results list containing `null` makes `r.Alternatives` throw a
`TypeError` (caught only by the enclosing message handler). -/
theorem extractTranscriptParts_raises_cex :
    extractTranscriptParts (Json.obj [("Transcript",
      Json.obj [("Results", Json.arr [Json.null])])]) = .error () := rfl

/-- C2 (amended): provided the (defaulted) results value is an array with no
`null` element (or a string), `extractTranscriptParts` does not raise and
returns exactly the segments of the results whose first alternative has
truthy (for strings: non-empty) `Transcript`, in the original order; every
returned segment has truthy text; and a payload missing the results list
yields the empty sequence. -/
theorem extractTranscriptParts_spec (json : Json) (h : goodResults json = true) :
    ∃ rs segs, jsIter (resultsValue json) = .ok rs
      ∧ extractTranscriptParts json = .ok segs
      ∧ segs = rs.filterMap segOf
      ∧ segs.length = rs.countP (fun r => (segOf r).isSome)
      ∧ (∀ sg ∈ segs, jsTruthy sg.text = true)
      ∧ (resultsRaw json = none → segs = []) := by
  unfold goodResults at h
  cases hv : resultsValue json with
  | arr rs =>
    rw [hv] at h
    have hnn : ∀ r ∈ rs, r.isNull = false := by
      intro r hr
      have := List.all_eq_true.1 h r hr
      simpa using this
    refine ⟨rs, rs.filterMap segOf, rfl, ?_, rfl, length_filterMap_countP segOf rs, ?_, ?_⟩
    · unfold extractTranscriptParts
      rw [hv]
      exact extractLoop_ok rs hnn
    · intro sg hsg
      obtain ⟨r, _, hseg⟩ := List.mem_filterMap.1 hsg
      exact segOf_text r sg hseg
    · intro hres
      have h2 : resultsValue json = Json.arr [] := by simp [resultsValue, hres]
      rw [hv] at h2
      simp only [Json.arr.injEq] at h2
      subst h2
      rfl
  | str s0 =>
    refine ⟨s0.data.map (fun ch => Json.str (String.mk [ch])), _, rfl, ?_, rfl,
      length_filterMap_countP segOf _, ?_, ?_⟩
    · unfold extractTranscriptParts
      rw [hv]
      exact extractLoop_ok _ (by
        intro r hr
        obtain ⟨ch, _, hch⟩ := List.mem_map.1 hr
        rw [← hch]
        rfl)
    · intro sg hsg
      obtain ⟨r, _, hseg⟩ := List.mem_filterMap.1 hsg
      exact segOf_text r sg hseg
    · intro hres
      have h2 : resultsValue json = Json.arr [] := by simp [resultsValue, hres]
      rw [hv] at h2
      exact absurd h2 (by simp)
  | null => rw [hv] at h; exact absurd h (by simp)
  | bool b => rw [hv] at h; exact absurd h (by simp)
  | num n => rw [hv] at h; exact absurd h (by simp)
  | obj fs => rw [hv] at h; exact absurd h (by simp)

/-- C2 (witness): a payload with two results, one with non-empty text. -/
theorem extractTranscriptParts_spec_witness :
    goodResults exPayload = true
  ∧ ∃ rs segs, jsIter (resultsValue exPayload) = .ok rs
      ∧ extractTranscriptParts exPayload = .ok segs
      ∧ segs = rs.filterMap segOf
      ∧ segs.length = rs.countP (fun r => (segOf r).isSome)
      ∧ (∀ sg ∈ segs, jsTruthy sg.text = true)
      ∧ (resultsRaw exPayload = none → segs = []) :=
  ⟨rfl, extractTranscriptParts_spec exPayload rfl⟩

/-- C3: round trip of the event-stream codec — decoding an encoded frame
returns header name/value pairs equal to the input and payload bytes equal
to the input, for every frame the wire format can carry (names fit the
one-byte length, values the two-byte length, the total the 32-bit length). -/
theorem eventstream_roundtrip (f : Frame)
    (hh : ∀ q ∈ f.headers, q.1.length < 256 ∧ q.2.length < 65536)
    (ht : 16 + (headerBytes f.headers).length + f.payload.length < 2 ^ 32) :
    decodeFrame (encodeFrame f) = some f :=
  decodeFrame_encodeFrame f hh ht

/-- C3 (witness): round trip of a concrete exception frame. -/
theorem eventstream_roundtrip_witness :
    (∀ q ∈ exceptionFrame.headers, q.1.length < 256 ∧ q.2.length < 65536)
  ∧ decodeFrame (encodeFrame exceptionFrame) = some exceptionFrame :=
  ⟨by decide, eventstream_roundtrip exceptionFrame (by decide) (by decide)⟩

/-- C4: `start({})` from a non-started session uses language `"en-US"` and
sample rate `16000` in both the status event and the (single) signing
attempt; a second `start` while `started` holds is a silent no-op: no
signing attempt, no emission, state unchanged. -/
theorem start_defaults_and_noop (parseJson : List Nat → Option Json) (s s' : Session)
    (h1 : s.started = false) (h2 : s'.started = true) :
    step parseJson s (.start ⟨none, none⟩ (.ok ())) =
      ⟨⟨some ⟨WSState.connecting⟩, true⟩, [.statusStarting "en-US" 16000],
        [signQuery "en-US" 16000], [], []⟩
  ∧ ∀ (msg : StartMsg) (sig : Except String Unit),
      step parseJson s' (.start msg sig) = noStep s' := by
  constructor
  · simp [step, h1, jsOrStr, jsOrNat]
  · intro msg sig
    simp [step, h2]

/-- C4 (witness): concrete Idle and Streaming sessions. -/
theorem start_defaults_and_noop_witness :
    sessionIdle.started = false ∧ sessionStreaming.started = true
  ∧ step pjNone sessionStreaming (.start ⟨some "fr-FR", some 8000⟩ (.ok ())) =
      noStep sessionStreaming :=
  ⟨rfl, rfl,
    (start_defaults_and_noop pjNone sessionIdle sessionStreaming rfl rfl).2
      ⟨some "fr-FR", some 8000⟩ (.ok ())⟩

/-- C5: an audio message with a valid non-empty base64 chunk, received while
Streaming with the upstream connection open, sends exactly one frame
upstream — the encoding of the frame whose headers are exactly
`:message-type=event`, `:event-type=AudioEvent`,
`:content-type=application/octet-stream` and whose payload is the decoded
bytes — with no emission and no state change; decoding that frame recovers
those headers and that payload; and `"AAAA"` decodes to three zero bytes. -/
theorem audio_streaming_frame (parseJson : List Nat → Option Json) (s : Session)
    (chunk : String) (bytes : List Nat)
    (hws : s.ws = some ⟨WSState.open_⟩) (hst : s.started = true)
    (hchunk : chunk ≠ "") (hdec : base64Decode chunk = some bytes)
    (hlen : bytes.length < 2 ^ 20) :
    step parseJson s (.audio (some chunk)) =
      ⟨s, [], [], [encodeFrame ⟨audioHeaders, bytes⟩], []⟩
  ∧ decodeFrame (encodeFrame ⟨audioHeaders, bytes⟩) = some ⟨audioHeaders, bytes⟩
  ∧ base64Decode "AAAA" = some [0, 0, 0] := by
  refine ⟨?_, ?_, rfl⟩
  · obtain ⟨ws, st⟩ := s
    dsimp only at hws
    subst hws
    simp [step, hchunk, hdec]
  · refine decodeFrame_encodeFrame ⟨audioHeaders, bytes⟩ ?_ ?_
    · dsimp only
      decide
    · have hhb : (headerBytes audioHeaders).length = 88 := by decide
      dsimp only
      rw [hhb]
      have h20 : (2 : Nat) ^ 20 = 1048576 := by norm_num
      have h32 : (2 : Nat) ^ 32 = 4294967296 := by norm_num
      omega

/-- C5 (witness): Scenario B — chunk `"AAAA"` while Streaming. -/
theorem audio_streaming_frame_witness :
    base64Decode "AAAA" = some [0, 0, 0]
  ∧ step pjNone sessionStreaming (.audio (some "AAAA")) =
      ⟨sessionStreaming, [], [], [encodeFrame ⟨audioHeaders, [0, 0, 0]⟩], []⟩ :=
  ⟨rfl, (audio_streaming_frame pjNone sessionStreaming "AAAA" [0, 0, 0] rfl rfl
    (by decide) rfl (by norm_num)).1⟩

/-- C6 (counterexample): on the client-disconnect transition of a Streaming
session, the upstream close is initiated but the `started` flag is *not*
cleared and the connection reference is *not* dropped — the claim's "released
and started cleared on every exit path" fails for the disconnect path. -/
theorem disconnect_no_reset_cex :
    (step pjNone ⟨some ⟨WSState.open_⟩, true⟩ .disconnect).s.started = true
  ∧ (step pjNone ⟨some ⟨WSState.open_⟩, true⟩ .disconnect).s.ws = some ⟨WSState.closing⟩
  ∧ (step pjNone ⟨some ⟨WSState.open_⟩, true⟩ .disconnect).closes =
      [(1001, "client disconnect")] :=
  ⟨rfl, rfl, rfl⟩

/-- C6 (amended): in every reachable session state, `started` equals
connection presence (so the session owns a connection iff started — never a
half-reset state, and a new connection is only ever created when none is
owned, so never two at once); `started` and the reference are cleared
together on the stop, upstream-close, upstream-error and failed-start
transitions.  On client disconnect the close is only initiated (see the
counterexample); the flag and reference are cleared by the subsequent
upstream-close event. -/
theorem session_invariants (parseJson : List Nat → Option Json) (s : Session)
    (h : Reachable parseJson s) :
    s.started = s.ws.isSome
  ∧ (s.started = false → s.ws = none)
  ∧ (step parseJson s .stop).s = ⟨none, false⟩
  ∧ (∀ code reason, (step parseJson s (.upClose code reason)).s = ⟨none, false⟩)
  ∧ (∀ m, (step parseJson s (.upError m)).s = ⟨none, false⟩)
  ∧ (∀ (msg : StartMsg) (m : String), s.started = false →
      (step parseJson s (.start msg (.error m))).s = ⟨none, false⟩) := by
  have hinv := reachable_started_iff parseJson s h
  obtain ⟨ws, st⟩ := s
  cases ws with
  | none =>
    have hst : st = false := by simpa using hinv
    subst hst
    refine ⟨rfl, fun _ => rfl, rfl, fun _ _ => rfl, fun _ => rfl, ?_⟩
    intro msg m _
    rfl
  | some c =>
    have hst : st = true := by simpa using hinv
    subst hst
    refine ⟨rfl, ?_, rfl, fun _ _ => rfl, fun _ => rfl, ?_⟩
    · intro h2
      exact absurd h2 (by simp)
    · intro msg m h2
      exact absurd h2 (by simp)

/-- C6 (witness): the invariant and the stop-clearing at the initial state. -/
theorem session_invariants_witness :
    (⟨none, false⟩ : Session).started = (⟨none, false⟩ : Session).ws.isSome
  ∧ (step pjNone ⟨none, false⟩ .stop).s = ⟨none, false⟩ :=
  ⟨(session_invariants pjNone _ Reachable.init).1,
   (session_invariants pjNone _ Reachable.init).2.2.1⟩

/-- C7: `stop()` while Streaming closes the upstream connection with code
1000 and reason "client stop", emits exactly the status "stopping", and in
the same step resets `started` to false and drops the connection reference —
with no waiting on the close handshake (the close call is merely issued). -/
theorem stop_streaming_spec (parseJson : List Nat → Option Json) (s : Session)
    (h : s.ws = some ⟨WSState.open_⟩) :
    step parseJson s .stop =
      ⟨⟨none, false⟩, [.statusStopping], [], [], [(1000, "client stop")]⟩ := by
  obtain ⟨ws, st⟩ := s
  dsimp only at h
  subst h
  rfl

/-- C7 (witness): Scenario D at the concrete Streaming session. -/
theorem stop_streaming_spec_witness :
    sessionStreaming.ws = some ⟨WSState.open_⟩
  ∧ step pjNone sessionStreaming .stop =
      ⟨⟨none, false⟩, [.statusStopping], [], [], [(1000, "client stop")]⟩ :=
  ⟨rfl, stop_streaming_spec pjNone sessionStreaming rfl⟩

/-- C8: an inbound frame whose `:message-type` is `exception` (any
event-type), received while Streaming, emits exactly one "error" whose
message is `Transcribe exception: <event-type> <payload text>` — containing
both the event-type and the decoded payload text — and leaves the session
state (and everything else) unchanged. -/
theorem exception_frame_spec (parseJson : List Nat → Option Json) (s : Session)
    (c : Conn) (hws : s.ws = some c) (hst : s.started = true)
    (data : List Nat) (f : Frame) (et : String)
    (hdec : decodeFrame data = some f)
    (hmt : f.headers.lookup (ascii ":message-type") = some (ascii "exception"))
    (het : f.headers.lookup (ascii ":event-type") = some (ascii et))
    (hetne : et ≠ "") :
    step parseJson s (.upMessage data) =
      ⟨s, [.errorMsg ("Transcribe exception: " ++ et ++ " " ++ textDecodeBytes f.payload)],
        [], [], []⟩
  ∧ (∃ x y, "Transcribe exception: " ++ et ++ " " ++ textDecodeBytes f.payload
      = x ++ (et ++ y))
  ∧ (∃ x y, "Transcribe exception: " ++ et ++ " " ++ textDecodeBytes f.payload
      = x ++ (textDecodeBytes f.payload ++ y)) := by
  refine ⟨?_, ?_, ?_⟩
  · obtain ⟨ws, st⟩ := s
    dsimp only at hws
    subst hws
    simp only [step, hdec]
    rw [if_neg (by
      rw [hmt]
      intro hcon
      have := hcon.1
      simp only [Option.some.injEq] at this
      exact absurd this (by decide))]
    rw [if_pos (by rw [hmt])]
    rw [het]
    simp [jsOrStr, textDecodeBytes_ascii, hetne]
  · exact ⟨"Transcribe exception: ", " " ++ textDecodeBytes f.payload, by
      rw [String.append_assoc, String.append_assoc]⟩
  · refine ⟨"Transcribe exception: " ++ et ++ " ", "", ?_⟩
    rw [String.append_assoc]
    simp
    exact (String.append_assoc _ _ _).symm

/-- C8 (witness): Scenario C — `BadRequestException` with body
"invalid sample rate". -/
theorem exception_frame_spec_witness :
    decodeFrame (encodeFrame exceptionFrame) = some exceptionFrame
  ∧ step pjNone sessionStreaming (.upMessage (encodeFrame exceptionFrame)) =
      ⟨sessionStreaming,
        [.errorMsg "Transcribe exception: BadRequestException invalid sample rate"],
        [], [], []⟩ :=
  ⟨rfl, (exception_frame_spec pjNone sessionStreaming ⟨WSState.open_⟩ rfl rfl
    (encodeFrame exceptionFrame) exceptionFrame "BadRequestException"
    rfl rfl rfl (by decide)).1⟩

/-- C9: an audio message received without an open upstream connection
(including Idle), or with a missing or empty `chunkBase64`, is dropped
silently: no frame sent, no emission, no state change. -/
theorem audio_dropped_spec (parseJson : List Nat → Option Json) (s : Session)
    (chunk? : Option String)
    (h : (∀ c : Conn, s.ws = some c → c.readyState ≠ WSState.open_)
      ∨ chunk? = none ∨ chunk? = some "") :
    step parseJson s (.audio chunk?) = noStep s := by
  obtain ⟨ws, st⟩ := s
  cases ws with
  | none => rfl
  | some c =>
    rcases h with h | h | h
    · have hne : c.readyState ≠ WSState.open_ := h c rfl
      simp [step, hne]
    · subst h
      by_cases hr : c.readyState = WSState.open_ <;> simp [step, hr, noStep]
    · subst h
      by_cases hr : c.readyState = WSState.open_ <;> simp [step, hr, noStep]

/-- C9 (witness): Scenario E — audio while Idle (never started). -/
theorem audio_dropped_spec_witness :
    sessionIdle.ws = none
  ∧ step pjNone sessionIdle (.audio (some "AAAA")) = noStep sessionIdle :=
  ⟨rfl, audio_dropped_spec pjNone sessionIdle (some "AAAA")
    (Or.inl fun c hc => by simp [sessionIdle] at hc)⟩

/-- C10: `stop()` while Idle is not a silent no-op: it still emits exactly
the status "stopping", performs no upstream close call, and leaves the state
as it was — `started` false, no connection. -/
theorem stop_idle_spec (parseJson : List Nat → Option Json) (s : Session)
    (h1 : s.ws = none) (h2 : s.started = false) :
    step parseJson s .stop = ⟨⟨none, false⟩, [.statusStopping], [], [], []⟩
  ∧ (step parseJson s .stop).s = s := by
  obtain ⟨ws, st⟩ := s
  dsimp only at h1 h2
  subst h1
  subst h2
  exact ⟨rfl, rfl⟩

/-- C10 (witness): stop at the concrete Idle session. -/
theorem stop_idle_spec_witness :
    sessionIdle.ws = none ∧ sessionIdle.started = false
  ∧ step pjNone sessionIdle .stop = ⟨⟨none, false⟩, [.statusStopping], [], [], []⟩ :=
  ⟨rfl, rfl, (stop_idle_spec pjNone sessionIdle rfl rfl).1⟩

end Gateway
